import Mathlib

/-!
Verification of the Hyperliquid top-20 leaderboard extraction engine
(`src/main.py`) against its natural-language specification.

The Python source is shallowly embedded: pure functions become Lean
functions over `List Char` / `String`, Python floats are idealised as `ℚ`
(every amount manipulated by the program is a short decimal literal, so
the idealisation is exact on all inputs exercised here; decimal rounding
ties, which a binary double never hits exactly at the `.xx5` points used
by `"%.2f"` formatting, are idealised as round-half-up), and the
browser-facing strategy chain becomes a pure function over a `Page`
record that carries the data each strategy would read from the live page,
with `Except Unit` marking the places where the Python code can raise.
-/

namespace HLTop

/-! ## MoneyNormalizer: `usd_to_float` (src/main.py:52) and
`format_amount` (src/main.py:65) -/

/-- `MULTS` (src/main.py:50): magnitude multipliers; `MULTS.get(c, 1.0)`. -/
def MULTS (c : Char) : ℚ :=
  if c = 'K' then 1000 else if c = 'M' then 1000000
  else if c = 'B' then 1000000000 else 1

/-- Word character for Python's `\b` (ASCII fragment of `\w`). -/
def isWordChar (c : Char) : Bool := c.isAlphanum || c = '_'

/-- Scan for the first match of `([KMB])\b` (src/main.py:57): the first
`K`/`M`/`B` that is followed by a non-word character or the end of the
text; returns its multiplier, or 1 when there is no match. -/
def findMult : List Char → ℚ
  | [] => 1
  | c :: rest =>
    if (c = 'K' || c = 'M' || c = 'B')
        && (match rest with | [] => true | d :: _ => !isWordChar d) then
      MULTS c
    else findMult rest

/-- Numeric value of a run of decimal digit characters. -/
def digitsValNat (ds : List Char) : ℕ :=
  ds.foldl (fun a c => a * 10 + (c.toNat - 48)) 0

/-- Attempt to match `-?\$?\s*(\d+(\.\d+)?)` (src/main.py:60) at the head
of the text.  Group 1 is returned in parts — integer-part value,
fraction-part value, fraction digit count — so that the textual scan
stays in `ℕ`.  The sign and the dollar sign are matched but NOT captured,
exactly as in the source regex, so group 1 is always the nonnegative
mantissa.  The character classes of the regex are pairwise disjoint, so
greedy matching without backtracking is exact. -/
def skipOne (c : Char) : List Char → List Char
  | [] => []
  | d :: r => if d = c then r else d :: r

/-- The optional `(\.\d+)?` group after the digit run: fraction value and
digit count, `(0, 0)` when the group does not participate. -/
def fracPart : List Char → ℕ × ℕ
  | [] => (0, 0)
  | c :: r2 =>
    if c = '.' then
      let fs := r2.takeWhile Char.isDigit
      if fs.isEmpty then (0, 0) else (digitsValNat fs, fs.length)
    else (0, 0)

def matchNumAt (l : List Char) : Option (ℕ × ℕ × ℕ) :=
  let l3 := (skipOne '$' (skipOne '-' l)).dropWhile Char.isWhitespace
  let ds := l3.takeWhile Char.isDigit
  if ds.isEmpty then none
  else
    let fp := fracPart (l3.drop ds.length)
    some (digitsValNat ds, fp.1, fp.2)

/-- `re.search` for the number pattern: try every start position, left to
right. -/
def findNum : List Char → Option (ℕ × ℕ × ℕ)
  | [] => none
  | c :: rest =>
    match matchNumAt (c :: rest) with
    | some q => some q
    | none => findNum rest

/-- Python `float` of the matched group 1: integer part plus scaled
fraction part. -/
def mantissa : ℕ × ℕ × ℕ → ℚ
  | (i, f, k) => (i : ℚ) + (f : ℚ) / (10 : ℚ) ^ k

/-- Python `str.strip()` on ASCII whitespace. -/
def stripChars (l : List Char) : List Char :=
  ((l.dropWhile Char.isWhitespace).reverse.dropWhile Char.isWhitespace).reverse

/-- The text that `usd_to_float` scans:
`s.strip().upper().replace(",", "")`. -/
def txtPipeline (l : List Char) : List Char :=
  ((stripChars l).map Char.toUpper).filter (fun c => c ≠ ',')

/-- `usd_to_float` (src/main.py:52): strip, uppercase, drop commas, find
the magnitude suffix and the first number, multiply. Returns 0 for empty
input or when no digit run exists. -/
def usd_to_float (s : String) : ℚ :=
  if s.data.isEmpty then 0
  else
    let txt := txtPipeline s.data
    let mult := findMult txt
    match findNum txt with
    | none => 0
    | some p => mantissa p * mult

/-- One decimal digit as a character. -/
def digitChar : ℕ → Char
  | 0 => '0' | 1 => '1' | 2 => '2' | 3 => '3' | 4 => '4'
  | 5 => '5' | 6 => '6' | 7 => '7' | 8 => '8' | _ => '9'

/-- Decimal digit characters of a natural number (fuel-driven so that the
definition is structurally recursive and kernel-reducible; the fuel is
consumed once per digit). -/
def natToCharsAux : ℕ → ℕ → List Char
  | 0, _ => []
  | fuel + 1, n =>
    if n < 10 then [digitChar n]
    else natToCharsAux fuel (n / 10) ++ [digitChar (n % 10)]

/-- Decimal representation of a natural number, most significant digit
first. -/
def natToChars (n : ℕ) : List Char := natToCharsAux (n + 1) n

/-- Thousands grouping of a reversed digit string: a comma after every
three digits (Python's `{:,}` format flag). -/
def group3 : List Char → List Char
  | a :: b :: c :: d :: rest => a :: b :: c :: ',' :: group3 (d :: rest)
  | l => l

/-- Python `f"{n:,}"` digits for a natural number. -/
def natCommaChars (n : ℕ) : List Char := (group3 (natToChars n).reverse).reverse

/-- Two-digit zero-padded decimal representation (fractional part of a
`%.2f` rendering). -/
def pad2 (k : ℕ) : List Char :=
  if k < 10 then '0' :: natToChars k else natToChars k

/-- Python `f"{q:.2f}"` for a nonnegative rational: round to two decimal
places and print `intpart.dd`. -/
def fmt2 (q : ℚ) : List Char :=
  let t : ℕ := (⌊q * 100 + 1 / 2⌋).toNat
  natToChars (t / 100) ++ '.' :: pad2 (t % 100)

/-- `format_amount` (src/main.py:65): sign, then `$`, then the mantissa
scaled by the largest fitting suffix rendered with two decimals, or a
comma-grouped whole-dollar amount below 1000. -/
def format_amount (n : ℚ) : String :=
  let sign : List Char := if n < 0 then ['-'] else []
  let a := |n|
  String.mk
    (if 1000000000 ≤ a then sign ++ '$' :: (fmt2 (a / 1000000000) ++ ['B'])
     else if 1000000 ≤ a then sign ++ '$' :: (fmt2 (a / 1000000) ++ ['M'])
     else if 1000 ≤ a then sign ++ '$' :: (fmt2 (a / 1000) ++ ['K'])
     else sign ++ '$' :: natCommaChars (⌊a + 1 / 2⌋).toNat)

/-! ## RecordHeuristics: `guess_side` (src/main.py:77),
`find_first_addr` (src/main.py:85), and the symbol regexes. -/

/-- Python's `in` on strings: substring containment. -/
def isInfixOfC (pat : List Char) : List Char → Bool
  | [] => pat.isEmpty
  | c :: rest => pat.isPrefixOf (c :: rest) || isInfixOfC pat rest

/-- `guess_side` (src/main.py:77): joins the lower-cased nonempty texts
and looks for the substrings `"short"` then `"long"`. -/
def guess_side (texts : List String) : String :=
  let joined : List Char :=
    List.intercalate [' ']
      ((texts.filter (fun t => !t.data.isEmpty)).map (fun t => t.data.map Char.toLower))
  if isInfixOfC "short".data joined then "short"
  else if isInfixOfC "long".data joined then "long"
  else "-"

/-- Hex digit for the address pattern `0x[a-fA-F0-9]{6,}`. -/
def isHexDigitC (c : Char) : Bool :=
  c.isDigit || ('a' ≤ c && c ≤ 'f') || ('A' ≤ c && c ≤ 'F')

/-- Scan for the first (leftmost, greedy) match of `0x[a-fA-F0-9]{6,}`
(src/main.py:89). -/
def findAddrC : List Char → Option (List Char)
  | [] => none
  | '0' :: rest =>
    (match rest with
     | 'x' :: rest2 =>
       let run := rest2.takeWhile isHexDigitC
       if 6 ≤ run.length then some ('0' :: 'x' :: run) else findAddrC rest
     | _ => findAddrC rest)
  | _ :: rest => findAddrC rest

/-- `find_first_addr` (src/main.py:85): first nonempty text containing an
address-shaped substring; returns the matched substring or `""`. -/
def find_first_addr : List String → String
  | [] => ""
  | t :: rest =>
    if t.data.isEmpty then find_first_addr rest
    else
      match findAddrC t.data with
      | some a => String.mk a
      | none => find_first_addr rest

/-- Uppercase ASCII letter (the regex class `[A-Z]`). -/
def isUpperAZ (c : Char) : Bool := 'A' ≤ c && c ≤ 'Z'

/-- Scan for the first match of `\b[A-Z]{2,10}\b` (src/main.py:376).  The
flag tracks whether the previous character was a word character (for the
left boundary).  At a candidate start the maximal uppercase run must have
length 2..10 and be followed by a non-word character or the end: a longer
run cannot match any shorter prefix either, because the character after
the prefix would be an uppercase (word) character. -/
def symScan : List Char → Bool → Option (List Char)
  | [], _ => none
  | c :: rest, prevW =>
    if !prevW && isUpperAZ c then
      let run := (c :: rest).takeWhile isUpperAZ
      if 2 ≤ run.length && run.length ≤ 10 &&
          (match (c :: rest).drop run.length with
           | [] => true
           | d :: _ => !isWordChar d) then
        some run
      else symScan rest (isWordChar c)
    else symScan rest (isWordChar c)

/-- Remove every occurrence of `"PERP"`, scanning left to right without
overlap (Python `str.replace("PERP", "")`, src/main.py:353). -/
def removePERP : List Char → List Char
  | 'P' :: 'E' :: 'R' :: 'P' :: rest => removePERP rest
  | c :: rest => c :: removePERP rest
  | [] => []

/-- Character class `[A-Z0-9:\-\.]` of the DOM-table symbol regex. -/
def symClassC (c : Char) : Bool :=
  isUpperAZ c || c.isDigit || c = ':' || c = '-' || c = '.'

/-- `re.fullmatch(r"[A-Z0-9:\-\.]{2,12}", t.replace("PERP","").replace(" ",""))`
(src/main.py:353). -/
def fullmatchSym (t : String) : Bool :=
  let u := (removePERP t.data).filter (fun c => c ≠ ' ')
  2 ≤ u.length && u.length ≤ 12 && u.all symClassC

/-- One match attempt of `\$\s*\d` (src/main.py:346): some `$` followed
by optional whitespace and a digit. -/
def dollarDigitC : List Char → Bool
  | [] => false
  | '$' :: rest =>
    (match rest.dropWhile Char.isWhitespace with
     | d :: _ => if d.isDigit then true else dollarDigitC rest
     | [] => dollarDigitC rest)
  | _ :: rest => dollarDigitC rest

/-! ## Data model: `TopRow` (src/main.py:40) -/

/-- `TopRow` (src/main.py:40).  `size_usd_num` is the Python float,
idealised as `ℚ`; `rank` is 0 until ranking assigns 1..20. -/
structure TopRow where
  rank : ℕ
  symbol : String
  side : String
  size_usd_text : String
  size_usd_num : ℚ
  owner : String
  address : String
deriving Repr, DecidableEq

/-! ## JSON model, `walk_json` (src/main.py:120) and
`extract_candidates_from_json` (src/main.py:130) -/

/-- JSON values as produced by `json.loads` / `resp.json()`.  Python
keeps `int` and `float` distinct (and `bool` is a subclass of `int`);
floats are idealised as `ℚ`.  Objects are association lists in insertion
order with distinct keys. -/
inductive Json where
  | null
  | bool (b : Bool)
  | int (n : ℤ)
  | float (q : ℚ)
  | str (s : String)
  | arr (xs : List Json)
  | obj (kvs : List (String × Json))

mutual
/-- `walk_json` (src/main.py:120) restricted to the dict nodes it yields
(the consumer only looks at dicts): document order, a dict before its
descendants. -/
def walkDicts : Json → List (List (String × Json))
  | .obj kvs => kvs :: walkKVs kvs
  | .arr xs => walkList xs
  | _ => []

def walkKVs : List (String × Json) → List (List (String × Json))
  | [] => []
  | (_, v) :: rest => walkDicts v ++ walkKVs rest

def walkList : List Json → List (List (String × Json))
  | [] => []
  | x :: rest => walkDicts x ++ walkList rest
end

/-- Python truthiness of a JSON value (`if x:` / `x or y`). -/
def jTruthy : Json → Bool
  | .null => false
  | .bool b => b
  | .int n => n ≠ 0
  | .float q => q ≠ 0
  | .str s => !s.data.isEmpty
  | .arr xs => !xs.isEmpty
  | .obj kvs => !kvs.isEmpty

/-- Python `a or b or ... or default`: first truthy value, else the
default.  `none` entries model `dict.get` misses (Python `None`). -/
def orChainJ : List (Option Json) → Json → Json
  | [], d => d
  | none :: rest, d => orChainJ rest d
  | some j :: rest, d => if jTruthy j then j else orChainJ rest d

/-- Signed decimal digits of an integer. -/
def intChars (n : ℤ) : List Char :=
  if n < 0 then '-' :: natToChars (-n).toNat else natToChars n.toNat

/-- Python `str()` of a JSON scalar.  `str()` of a non-integral float or
of a container is not modelled exactly (no claim exercises those
corners): a non-integral float is rendered as `num/den` and a container
as the empty string. -/
def pyStr : Json → String
  | .str s => s
  | .int n => String.mk (intChars n)
  | .bool true => "True"
  | .bool false => "False"
  | .null => "None"
  | .float q =>
    if q.den = 1 then String.mk (intChars q.num ++ ['.', '0'])
    else String.mk (intChars q.num ++ '/' :: natToChars q.den)
  | .arr _ => ""
  | .obj _ => ""

/-- The candidate USD-amount keys tried first, in order (src/main.py:141). -/
def usd_fields : List String :=
  ["mainPosition", "main_position", "positionUsd", "mainUsd", "usd",
   "notionalUsd", "pv", "sizeUsd", "valueUsd"]

/-- The textual amount keys tried second, in order (src/main.py:145). -/
def text_fields : List String :=
  ["mainPositionText", "main_position_text", "positionUsdText",
   "sizeUsdText", "pvText", "valueText"]

/-- Value and display text of a `usd_fields` hit:
`isinstance(obj[k], (int, float, str))` — note Python `bool` IS an `int`,
and a string hit is parsed with `usd_to_float` while a numeric hit is
rendered with `format_amount` (src/main.py:154). -/
def numFieldVal : Json → Option (ℚ × String)
  | .str s => some (usd_to_float s, s)
  | .int n => some ((n : ℚ), format_amount (n : ℚ))
  | .float q => some (q, format_amount q)
  | .bool b => some (if b then 1 else 0, format_amount (if b then 1 else 0))
  | _ => none

/-- First `usd_fields` key present with an accepted type (the loop at
src/main.py:154 only breaks when both `k in obj` and the isinstance test
hold). -/
def firstNumField (kvs : List (String × Json)) : Option (ℚ × String) :=
  usd_fields.findSome? fun k => (kvs.lookup k).bind numFieldVal

/-- First `text_fields` key present with a string value containing `$`
(src/main.py:166). -/
def firstTextField (kvs : List (String × Json)) : Option (ℚ × String) :=
  text_fields.findSome? fun k =>
    match kvs.lookup k with
    | some (.str s) =>
      if s.data.contains '$' then some (usd_to_float s, s) else none
    | _ => none

/-- Does `str(address)` match `^0x[a-fA-F0-9]{6,}` (anchored prefix,
src/main.py:194)? -/
def startsWithAddr (l : List Char) : Bool :=
  match l with
  | '0' :: 'x' :: rest => 6 ≤ (rest.takeWhile isHexDigitC).length
  | _ => false

/-- The body of the candidate loop of `extract_candidates_from_json`
(src/main.py:136-208) for one dict node: amount (numeric fields first,
then `$`-bearing text fields; a found-but-zero amount rejects the node),
then symbol / side / owner / address heuristics. -/
def candidateOfDict (kvs : List (String × Json)) : Option TopRow :=
  let sv := match firstNumField kvs with
            | some p => some p
            | none => firstTextField kvs
  match sv with
  | none => none
  | some (val, txt) =>
    if val = 0 then none
    else
      let symbol0 := orChainJ [kvs.lookup "symbol", kvs.lookup "asset", kvs.lookup "pair"] (.str "-")
      let symbol1 := match symbol0 with
        | .obj k2 => orChainJ [k2.lookup "name", k2.lookup "symbol"] (.str "-")
        | s => s
      let side0 := orChainJ [kvs.lookup "side", kvs.lookup "positionSide"] (.str "-")
      let side1 := match side0 with
        | .obj k2 => orChainJ [k2.lookup "name"] (.str "-")
        | s => s
      let owner0 := orChainJ [kvs.lookup "owner", kvs.lookup "name"] (.str "")
      let addr0 := orChainJ [kvs.lookup "address", kvs.lookup "wallet", kvs.lookup "trader"] (.str "")
      let addr1 := match addr0 with
        | .obj k2 => orChainJ [k2.lookup "address", k2.lookup "id"] (.str "")
        | s => s
      let addrS :=
        if jTruthy addr1 then
          let s := pyStr addr1
          if startsWithAddr s.data then s
          else
            match findAddrC s.data with
            | some a => String.mk a
            | none => s
        else ""
      some { rank := 0
             symbol := if jTruthy symbol1 then pyStr symbol1 else "-"
             side := if jTruthy side1 then pyStr side1 else "-"
             size_usd_text := if txt.data.isEmpty then format_amount val else txt
             size_usd_num := val
             owner := if jTruthy owner0 then pyStr owner0 else ""
             address := addrS }

/-- `extract_candidates_from_json` (src/main.py:130): walk all dict
nodes in document order and keep each one's candidate, if any. -/
def extract_candidates_from_json (j : Json) : List TopRow :=
  (walkDicts j).filterMap candidateOfDict

/-! ## Ranking (the common tail of every strategy,
src/main.py:281-284, 300-304, 316-320, 387-390) -/

/-- Sort key magnitude: `abs(r.size_usd_num)`. -/
def absAmt (r : TopRow) : ℚ := |r.size_usd_num|

/-- Stable descending insertion: a new row goes after every existing row
of greater-or-equal magnitude, which reproduces Python's stable
`list.sort(key=..., reverse=True)`. -/
def insertDesc (r : TopRow) : List TopRow → List TopRow
  | [] => [r]
  | x :: xs => if absAmt x < absAmt r then r :: x :: xs else x :: insertDesc r xs

/-- Stable sort by descending `abs(size_usd_num)`. -/
def sortDesc (l : List TopRow) : List TopRow :=
  l.foldl (fun acc r => insertDesc r acc) []

/-- `rows.sort(key=lambda r: abs(r.size_usd_num), reverse=True)` followed
by `for i, r in enumerate(rows[:20], start=1): r.rank = i` and
`return rows[:20]`. -/
def rankRows (rows : List TopRow) : List TopRow :=
  (((sortDesc rows).take 20).enum).map fun p => { p.2 with rank := p.1 + 1 }

/-! ## The four extraction strategies and `fetch_hyperdash_top`
(src/main.py:211-390) -/

/-- The data a single rendered page offers to the four strategies.
`Except Unit` marks operations of the Python code that can raise
(`inner_text`, `json.loads`, `page.evaluate`, ...): `.error ()` means
that operation raises when executed. -/
structure Page where
  /-- `script#__NEXT_DATA__`: absent, raising on read/parse, or parsed. -/
  nextData : Option (Except Unit Json)
  /-- The `script[type='application/json']` tags, in DOM order: `none`
  for a tag whose text does not start with a brace or bracket, otherwise
  the result of `json.loads` on it. -/
  appJsonScripts : List (Option (Except Unit Json))
  /-- JSON network responses captured by the `on_response` handler
  (responses whose parse raises are already dropped there). -/
  capturedJson : List Json
  /-- The `wait_for_timeout` + capture processing of strategy B: `.error`
  if that block raises. -/
  bWait : Except Unit Unit
  /-- DOM table rows: for each `tr`, the stripped cell texts, or `.error`
  if reading that row raises (aborting the row loop). -/
  domRows : List (Except Unit (List String))
  /-- `page.evaluate("document.body.innerText || ''")`: the visible text,
  or `.error` if the evaluation raises.  NOTE: in the source this call is
  outside every try/except. -/
  bodyText : Except Unit String

/-- Strategy A1 (src/main.py:271-287): `__NEXT_DATA__`. -/
def strategyA1 (p : Page) : Except Unit (List TopRow) :=
  match p.nextData with
  | none => .ok []
  | some (.error e) => .error e
  | some (.ok j) => .ok (extract_candidates_from_json j)

/-- Strategy A2 loop (src/main.py:289-306): first
`script[type='application/json']` whose payload yields candidates wins; a
`json.loads` failure aborts the whole block (the try wraps the loop). -/
def runA2 : List (Option (Except Unit Json)) → Except Unit (List TopRow)
  | [] => .ok []
  | none :: rest => runA2 rest
  | some (.error e) :: _ => .error e
  | some (.ok j) :: rest =>
    let rows := extract_candidates_from_json j
    if rows.isEmpty then runA2 rest else .ok rows

/-- Strategy A2 (src/main.py:289-306), over at most 12 scripts. -/
def strategyA2 (p : Page) : Except Unit (List TopRow) :=
  runA2 (p.appJsonScripts.take 12)

/-- Strategy B (src/main.py:308-322): wait, then extract from every
captured JSON payload and concatenate. -/
def strategyB (p : Page) : Except Unit (List TopRow) :=
  match p.bWait with
  | .error e => .error e
  | .ok _ => .ok (p.capturedJson.flatMap extract_candidates_from_json)

/-- One DOM table row (src/main.py:338-363): first cell with `$` + digit
is the size text; rows with zero parsed amount are skipped; symbol is the
first ticker-shaped cell, else the first cell; side and address from the
heuristics. -/
def rowC (texts : List String) : Option TopRow :=
  match texts with
  | [] => none
  | t0 :: _ =>
    let size_txt := (texts.find? fun t => dollarDigitC t.data).getD ""
    let size_num := usd_to_float size_txt
    if size_num = 0 then none
    else
      some { rank := 0
             symbol := (texts.find? fullmatchSym).getD t0
             side := guess_side texts
             size_usd_text := if size_txt.data.isEmpty then format_amount size_num else size_txt
             size_usd_num := size_num
             owner := ""
             address := find_first_addr texts }

/-- Strategy C row loop (src/main.py:332-365): rows accumulate; an
exception while reading a row is caught with the rows gathered so far
kept (the `try` wraps the whole loop, after `rows = []`). -/
def runCAux (acc : List TopRow) : List (Except Unit (List String)) → List TopRow
  | [] => acc
  | .error _ :: _ => acc
  | .ok texts :: rest => runCAux (acc ++ (rowC texts).toList) rest

/-- Split visible text into lines (Python `str.splitlines`, modelled on
`'\n'` only; other line separators do not occur in the inputs considered,
and a `$`-less empty tail line is filtered out either way). -/
def splitOnNl : List Char → List (List Char)
  | [] => [[]]
  | '\n' :: rest => [] :: splitOnNl rest
  | c :: rest =>
    match splitOnNl rest with
    | [] => [[c]]
    | l :: ls => (c :: l) :: ls

/-- One surviving line of strategy D (src/main.py:371-383): parse the
whole line as an amount, skip on zero, then side / symbol / address
heuristics; the line itself is the display text. -/
def lineD (ln : String) : Option TopRow :=
  let size_num := usd_to_float ln
  if size_num = 0 then none
  else
    some { rank := 0
           symbol := match symScan ln.data false with
                     | some cs => String.mk cs
                     | none => "-"
           side := guess_side [ln]
           size_usd_text := ln
           size_usd_num := size_num
           owner := ""
           address := find_first_addr [ln] }

/-- Strategy D (src/main.py:367-383): keep the lines containing `$`,
strip each, and process each as one candidate. -/
def runD (body : String) : List TopRow :=
  ((((splitOnNl body.data).filter fun ln => ln.contains '$').map
      fun ln => String.mk (stripChars ln)).filterMap lineD)

/-- Catching a strategy's exception at the chain level turns it into zero
candidates (the `except ... dlog` arms at src/main.py:286, 305, 321). -/
def runCaught (r : Except Unit (List TopRow)) : List TopRow :=
  match r with
  | .error _ => []
  | .ok rows => rows

/-- Candidates of the embedded-state stage (strategies A1 then A2, the
two script-tag blocks, src/main.py:271-306). -/
def embeddedRows (p : Page) : List TopRow :=
  let a1 := runCaught (strategyA1 p)
  if a1 = [] then runCaught (strategyA2 p) else a1

/-- Candidates of the network-capture stage (src/main.py:308-322). -/
def networkRows (p : Page) : List TopRow :=
  runCaught (strategyB p)

/-- Candidates of the DOM-table stage (src/main.py:324-365). -/
def domTableRows (p : Page) : List TopRow :=
  runCAux [] p.domRows

/-- `fetch_hyperdash_top` (src/main.py:211-390): the strategy chain.
Each successful stage returns its ranked rows at once; stage failures up
to and including the DOM stage are caught; the body-text evaluation of
strategy D (src/main.py:369) is NOT inside a try/except, so its failure
escapes as an exception. -/
def fetch_hyperdash_top (p : Page) : Except Unit (List TopRow) :=
  let a1 := runCaught (strategyA1 p)
  if a1 = [] then
    let a2 := runCaught (strategyA2 p)
    if a2 = [] then
      let b := runCaught (strategyB p)
      if b = [] then
        let c := runCAux [] p.domRows
        if c = [] then
          match p.bodyText with
          | .error e => .error e
          | .ok t => .ok (rankRows (runD t))
        else .ok (rankRows c)
      else .ok (rankRows b)
    else .ok (rankRows a2)
  else .ok (rankRows a1)

/-! ## Caller layer: `format_top_markdown` (src/main.py:392) and
`cmd_top` (src/main.py:418) -/

def HYPERDASH_URL : String := "https://hyperdash.info/top-traders"

/-- `format_top_markdown` (src/main.py:392): a friendly no-data message
for an empty list, otherwise the markdown table. -/
def format_top_markdown (rows : List TopRow) : String :=
  if rows.isEmpty then
    "_No se pudieron extraer filas (la página no devolvió datos visibles)._"
  else
    String.intercalate "\n"
      (["*Top 20 — Main Position ($) — Hyperdash*",
        "_Fuente: " ++ HYPERDASH_URL ++ "_",
        "",
        "Rank | Side | Size (USD) | Symbol | Owner/Addr",
        ":--: | :--- | ----------: | :----- | :--------"] ++
       rows.map fun r =>
         let who := if !r.owner.data.isEmpty then r.owner
                    else if !r.address.data.isEmpty then r.address
                    else "-"
         String.mk (natToChars r.rank) ++ " | " ++ r.side ++ " | " ++
           r.size_usd_text ++ " | " ++ r.symbol ++ " | " ++ who)

/-- `cmd_top` (src/main.py:418): reply with the formatted result of a
fresh `fetch_hyperdash_top` call; if the fetch raises, reply with an
error message (the exception text is not modelled).  The handler keeps no
state between calls; no cache, TTL, or timestamp exists anywhere in the
module, and the wall-clock time of the call — made explicit here as
`_nowMillis` so that timing claims can be stated — is never read. -/
def cmd_top (_nowMillis : ℕ) (p : Page) : String :=
  match fetch_hyperdash_top p with
  | .ok rows => format_top_markdown rows
  | .error _ => "⚠️ Error al generar el Top"

/-! ## Helper lemmas: character classes -/

theorem not_ws_of_digit {c : Char} (h : c.isDigit = true) : c.isWhitespace = false := by
  simp only [Char.isWhitespace, Bool.or_eq_false_iff, decide_eq_false_iff_not]
  refine ⟨⟨⟨?_, ?_⟩, ?_⟩, ?_⟩ <;> (rintro rfl; exact absurd h (by decide))

theorem toNat_bounds_of_digit {c : Char} (h : c.isDigit = true) :
    48 ≤ c.toNat ∧ c.toNat ≤ 57 := by
  simp only [Char.isDigit, Bool.and_eq_true, decide_eq_true_eq] at h
  obtain ⟨h1, h2⟩ := h
  exact ⟨UInt32.le_toNat_of_le (by norm_num) h1, UInt32.toNat_le_of_le (by norm_num) h2⟩

theorem toUpper_of_toNat_lt {c : Char} (h : c.toNat < 97) : c.toUpper = c := by
  unfold Char.toUpper
  rw [if_neg]
  rintro ⟨h1, _⟩
  omega

theorem toUpper_of_digit {c : Char} (h : c.isDigit = true) : c.toUpper = c :=
  toUpper_of_toNat_lt (by have := toNat_bounds_of_digit h; omega)

theorem ne_comma_of_digit {c : Char} (h : c.isDigit = true) : (c = ',') = False := by
  simp only [eq_iff_iff, iff_false]
  rintro rfl; exact absurd h (by decide)

theorem not_kmb_of_digit {c : Char} (h : c.isDigit = true) :
    ((c = 'K' || c = 'M' || c = 'B') : Bool) = false := by
  simp only [Bool.or_eq_false_iff, decide_eq_false_iff_not]
  refine ⟨⟨?_, ?_⟩, ?_⟩ <;> (rintro rfl; exact absurd h (by decide))

/-! ## Helper lemmas: digit strings -/

theorem digitChar_toNat {k : ℕ} (h : k < 10) : (digitChar k).toNat = 48 + k := by
  interval_cases k <;> rfl

theorem digitChar_isDigit {k : ℕ} (h : k < 10) : (digitChar k).isDigit = true := by
  interval_cases k <;> rfl

theorem natToCharsAux_congr : ∀ f1 f2 n, n < f1 → n < f2 →
    natToCharsAux f1 n = natToCharsAux f2 n := by
  intro f1
  induction f1 with
  | zero => intro f2 n h; omega
  | succ a ih =>
    intro f2 n h1 h2
    cases f2 with
    | zero => omega
    | succ b =>
      simp only [natToCharsAux]
      by_cases hn : n < 10
      · simp [hn]
      · simp only [hn, if_false]
        rw [ih b (n / 10) (by omega) (by omega)]

theorem natToChars_eq (n : ℕ) :
    natToChars n = if n < 10 then [digitChar n]
                   else natToChars (n / 10) ++ [digitChar (n % 10)] := by
  by_cases hn : n < 10
  · simp [natToChars, natToCharsAux, hn]
  · rw [if_neg hn]
    show natToCharsAux (n + 1) n = _
    rw [show natToCharsAux (n + 1) n
          = natToCharsAux n (n / 10) ++ [digitChar (n % 10)] from by
        simp only [natToCharsAux, hn, if_false],
      natToCharsAux_congr n (n / 10 + 1) (n / 10)
        (by omega) (by omega)]
    rfl

theorem natToChars_ne_nil (n : ℕ) : natToChars n ≠ [] := by
  rw [natToChars_eq]
  by_cases hn : n < 10 <;> simp [hn]

theorem natToChars_all_digit (n : ℕ) : ∀ c ∈ natToChars n, c.isDigit = true := by
  induction n using Nat.strong_induction_on with
  | _ n ih =>
    rw [natToChars_eq]
    by_cases hn : n < 10
    · simp only [hn, if_true, List.mem_singleton]
      rintro c rfl; exact digitChar_isDigit hn
    · simp only [hn, if_false, List.mem_append, List.mem_singleton]
      rintro c (hc | rfl)
      · exact ih (n / 10) (Nat.div_lt_self (by omega) (by omega)) c hc
      · exact digitChar_isDigit (Nat.mod_lt _ (by omega))

theorem digitsValNat_append_one (l : List Char) (c : Char) :
    digitsValNat (l ++ [c]) = digitsValNat l * 10 + (c.toNat - 48) := by
  simp [digitsValNat, List.foldl_append]

theorem digitsValNat_natToChars (n : ℕ) : digitsValNat (natToChars n) = n := by
  induction n using Nat.strong_induction_on with
  | _ n ih =>
    rw [natToChars_eq]
    by_cases hn : n < 10
    · simp [hn, digitsValNat, digitChar_toNat hn]
    · simp only [hn, if_false, digitsValNat_append_one,
        ih (n / 10) (Nat.div_lt_self (by omega) (by omega)),
        digitChar_toNat (Nat.mod_lt n (by omega))]
      omega

theorem natToChars_length_le : ∀ d n, n < 10 ^ (d + 1) →
    (natToChars n).length ≤ d + 1 := by
  intro d
  induction d with
  | zero =>
    intro n hn
    rw [natToChars_eq, if_pos (by simpa using hn)]
    simp
  | succ a ih =>
    intro n hn
    rw [natToChars_eq]
    by_cases h10 : n < 10
    · simp [h10]
    · rw [if_neg h10]
      have : n / 10 < 10 ^ (a + 1) := by
        rw [Nat.div_lt_iff_lt_mul (by omega)]
        calc n < 10 ^ (a + 1 + 1) := hn
        _ = 10 ^ (a + 1) * 10 := by ring
      simpa using ih (n / 10) this

theorem pad2_all_digit {k : ℕ} (h : k < 100) : ∀ c ∈ pad2 k, c.isDigit = true := by
  unfold pad2
  by_cases hk : k < 10
  · simp only [hk, if_true, List.mem_cons]
    rintro c (rfl | hc)
    · decide
    · exact natToChars_all_digit k c hc
  · simp only [hk, if_false]
    exact natToChars_all_digit k

theorem natToChars_length_eq_one {n : ℕ} (h : n < 10) : (natToChars n).length = 1 := by
  rw [natToChars_eq, if_pos h]
  rfl

theorem pad2_length {k : ℕ} (h : k < 100) : (pad2 k).length = 2 := by
  unfold pad2
  by_cases hk : k < 10
  · simp [hk, natToChars_length_eq_one hk]
  · rw [if_neg hk, natToChars_eq, if_neg hk]
    have h1 : k / 10 < 10 := by omega
    simp [natToChars_length_eq_one h1]

theorem digitsValNat_pad2 {k : ℕ} (h : k < 100) : digitsValNat (pad2 k) = k := by
  unfold pad2
  by_cases hk : k < 10
  · rw [if_pos hk]
    show digitsValNat ('0' :: natToChars k) = k
    have : digitsValNat ('0' :: natToChars k) = digitsValNat (natToChars k) := by
      simp [digitsValNat]
    rw [this, digitsValNat_natToChars]
  · rw [if_neg hk, digitsValNat_natToChars]

/-! ## Helper lemmas: scanning identities -/

theorem dropWhile_eq_self {p : Char → Bool} {l : List Char}
    (h : ∀ c ∈ l, p c = false) : l.dropWhile p = l := by
  cases l with
  | nil => rfl
  | cons c rest => simp [List.dropWhile_cons, h c (by simp)]

theorem stripChars_eq_self {l : List Char} (h : ∀ c ∈ l, c.isWhitespace = false) :
    stripChars l = l := by
  unfold stripChars
  rw [dropWhile_eq_self h,
    dropWhile_eq_self (by intro c hc; exact h c (List.mem_reverse.mp hc)),
    List.reverse_reverse]

theorem map_toUpper_eq_self {l : List Char} (h : ∀ c ∈ l, c.toUpper = c) :
    l.map Char.toUpper = l := by
  induction l with
  | nil => rfl
  | cons c rest ih => simp [h c (by simp), ih (fun d hd => h d (by simp [hd]))]

theorem txtPipeline_eq_self {l : List Char}
    (hw : ∀ c ∈ l, c.isWhitespace = false)
    (hu : ∀ c ∈ l, c.toUpper = c)
    (hc : ∀ c ∈ l, (c = ',') = False) :
    txtPipeline l = l := by
  unfold txtPipeline
  rw [stripChars_eq_self hw, map_toUpper_eq_self hu, List.filter_eq_self.mpr]
  intro a ha
  simp [hc a ha]

theorem takeWhile_append_all {p : Char → Bool} {l r : List Char}
    (h : ∀ c ∈ l, p c = true) :
    (l ++ r).takeWhile p = l ++ r.takeWhile p := by
  induction l with
  | nil => rfl
  | cons c rest ih =>
    simp [List.takeWhile_cons, h c (by simp), ih (fun d hd => h d (by simp [hd]))]

theorem findMult_append_suf {l : List Char} {suf : Char}
    (h : ∀ c ∈ l, ((c = 'K' || c = 'M' || c = 'B') : Bool) = false)
    (hs : (suf = 'K' || suf = 'M' || suf = 'B' : Bool) = true) :
    findMult (l ++ [suf]) = MULTS suf := by
  induction l with
  | nil => simp [findMult, hs]
  | cons c rest ih =>
    rw [List.cons_append]
    simp only [findMult, h c (by simp), Bool.false_and, if_false]
    exact ih (fun d hd => h d (by simp [hd]))

theorem findMult_no_kmb {l : List Char}
    (h : ∀ c ∈ l, ((c = 'K' || c = 'M' || c = 'B') : Bool) = false) :
    findMult l = 1 := by
  induction l with
  | nil => rfl
  | cons c rest ih =>
    simp only [findMult, h c (by simp), Bool.false_and, if_false]
    exact ih (fun d hd => h d (by simp [hd]))

/-- `matchNumAt` on a formatted amount `⟨$⟩⟨digits⟩.⟨digits⟩⟨tail⟩` with a
non-digit tail head. -/
theorem matchNumAt_dollar (ds fs tail : List Char) (d : Char) (ds' : List Char)
    (hds : ds = d :: ds') (hdsd : ∀ c ∈ ds, c.isDigit = true)
    (hfs : fs.isEmpty = false) (hfsd : ∀ c ∈ fs, c.isDigit = true)
    (htail : tail.takeWhile Char.isDigit = []) :
    matchNumAt ('$' :: (ds ++ '.' :: (fs ++ tail)))
      = some (digitsValNat ds, digitsValNat fs, fs.length) := by
  subst hds
  have hdnw : Char.isWhitespace d = false := not_ws_of_digit (hdsd d (by simp))
  simp only [matchNumAt]
  have h1 : skipOne '-' ('$' :: ((d :: ds') ++ '.' :: (fs ++ tail)))
      = '$' :: ((d :: ds') ++ '.' :: (fs ++ tail)) := by simp [skipOne]
  have h2 : skipOne '$' ('$' :: ((d :: ds') ++ '.' :: (fs ++ tail)))
      = (d :: ds') ++ '.' :: (fs ++ tail) := by simp [skipOne]
  rw [h1, h2]
  have h3 : List.dropWhile Char.isWhitespace ((d :: ds') ++ '.' :: (fs ++ tail))
      = (d :: ds') ++ '.' :: (fs ++ tail) := by
    rw [List.cons_append, List.dropWhile_cons, hdnw]
    simp
  rw [h3]
  have h4 : List.takeWhile Char.isDigit ((d :: ds') ++ '.' :: (fs ++ tail))
      = d :: ds' := by
    rw [takeWhile_append_all hdsd, List.takeWhile_cons]
    simp
  rw [h4]
  have h5 : List.drop (d :: ds').length ((d :: ds') ++ '.' :: (fs ++ tail))
      = '.' :: (fs ++ tail) := List.drop_left _ _
  rw [h5]
  have h6 : fracPart ('.' :: (fs ++ tail)) = (digitsValNat fs, fs.length) := by
    simp only [fracPart, if_pos rfl, takeWhile_append_all hfsd, htail, List.append_nil]
    simp [hfs]
  rw [h6]
  simp

/-- `matchNumAt` on `⟨$⟩⟨digits⟩⟨tail⟩` where the tail does not continue
the number (no digits, and no `.` followed by a digit). -/
theorem matchNumAt_dollar_int (ds tail : List Char) (d : Char) (ds' : List Char)
    (hds : ds = d :: ds') (hdsd : ∀ c ∈ ds, c.isDigit = true)
    (htail : fracPart tail = (0, 0))
    (htail2 : tail.takeWhile Char.isDigit = []) :
    matchNumAt ('$' :: (ds ++ tail)) = some (digitsValNat ds, 0, 0) := by
  subst hds
  have hdnw : Char.isWhitespace d = false := not_ws_of_digit (hdsd d (by simp))
  simp only [matchNumAt]
  have h1 : skipOne '-' ('$' :: ((d :: ds') ++ tail)) = '$' :: ((d :: ds') ++ tail) := by
    simp [skipOne]
  have h2 : skipOne '$' ('$' :: ((d :: ds') ++ tail)) = (d :: ds') ++ tail := by
    simp [skipOne]
  rw [h1, h2]
  have h3 : List.dropWhile Char.isWhitespace ((d :: ds') ++ tail)
      = (d :: ds') ++ tail := by
    rw [List.cons_append, List.dropWhile_cons, hdnw]
    simp
  rw [h3]
  have h4 : List.takeWhile Char.isDigit ((d :: ds') ++ tail) = d :: ds' := by
    rw [takeWhile_append_all hdsd, htail2, List.append_nil]
  rw [h4]
  have h5 : List.drop (d :: ds').length ((d :: ds') ++ tail) = tail :=
    List.drop_left _ _
  rw [h5, htail]
  simp

/-- `findNum` hits at position 0 when `matchNumAt` succeeds there. -/
theorem findNum_cons_of_match {c : Char} {rest : List Char} {p : ℕ × ℕ × ℕ}
    (h : matchNumAt (c :: rest) = some p) : findNum (c :: rest) = some p := by
  simp [findNum, h]

/-! ## Helper lemmas: parsing a formatted amount -/

theorem MULTS_pos (c : Char) : 0 < MULTS c := by
  unfold MULTS
  split <;> try norm_num
  split <;> try norm_num
  split <;> norm_num

theorem mantissa_nonneg (p : ℕ × ℕ × ℕ) : 0 ≤ mantissa p := by
  obtain ⟨i, f, k⟩ := p
  unfold mantissa
  positivity

theorem findMult_pos (l : List Char) : 0 < findMult l := by
  induction l with
  | nil => norm_num [findMult]
  | cons c rest ih =>
    simp only [findMult]
    split
    · exact MULTS_pos c
    · exact ih

/-- `usd_to_float` never returns a negative value: the regex group that
is converted to a float excludes the minus sign. -/
theorem usd_to_float_nonneg (s : String) : 0 ≤ usd_to_float s := by
  unfold usd_to_float
  split
  · norm_num
  · dsimp only
    split
    · norm_num
    · exact mul_nonneg (mantissa_nonneg _) (le_of_lt (findMult_pos _))

/-- Characters of a two-decimal mantissa-with-suffix rendering, for the
pipeline identity. -/
theorem tier_chars_classes (I F : ℕ) (suf : Char) (hF : F < 100)
    (hs : (suf = 'K' || suf = 'M' || suf = 'B' : Bool) = true) :
    ∀ c ∈ '$' :: (natToChars I ++ '.' :: (pad2 F ++ [suf])),
      c.isWhitespace = false ∧ c.toUpper = c ∧ ((c = ',') = False) := by
  have hsuf : suf = 'K' ∨ suf = 'M' ∨ suf = 'B' := by
    simpa [Bool.or_eq_true, decide_eq_true_eq, or_assoc] using hs
  intro c hc
  simp only [List.mem_cons, List.mem_append, List.mem_singleton, List.not_mem_nil,
    or_false] at hc
  rcases hc with rfl | hI | rfl | hF2 | rfl
  · exact ⟨rfl, rfl, by simp⟩
  · have hd := natToChars_all_digit I c hI
    exact ⟨not_ws_of_digit hd, toUpper_of_digit hd, ne_comma_of_digit hd⟩
  · exact ⟨rfl, rfl, by simp⟩
  · have hd := pad2_all_digit hF c hF2
    exact ⟨not_ws_of_digit hd, toUpper_of_digit hd, ne_comma_of_digit hd⟩
  · rcases hsuf with rfl | rfl | rfl <;> exact ⟨rfl, rfl, by simp⟩

/-- Parse of `"$<I>.<FF><suf>"`: the mantissa parts and the suffix
multiplier are recovered exactly. -/
theorem usd_parse_tier (I F : ℕ) (suf : Char) (hF : F < 100)
    (hs : (suf = 'K' || suf = 'M' || suf = 'B' : Bool) = true) :
    usd_to_float (String.mk ('$' :: (natToChars I ++ '.' :: (pad2 F ++ [suf]))))
      = ((I : ℚ) + (F : ℚ) / 100) * MULTS suf := by
  have hsuf : suf = 'K' ∨ suf = 'M' ∨ suf = 'B' := by
    simpa [Bool.or_eq_true, decide_eq_true_eq, or_assoc] using hs
  have hclasses := tier_chars_classes I F suf hF hs
  have hpipe : txtPipeline ('$' :: (natToChars I ++ '.' :: (pad2 F ++ [suf])))
      = '$' :: (natToChars I ++ '.' :: (pad2 F ++ [suf])) :=
    txtPipeline_eq_self (fun c hc => (hclasses c hc).1)
      (fun c hc => (hclasses c hc).2.1) (fun c hc => (hclasses c hc).2.2)
  have hassoc : '$' :: (natToChars I ++ '.' :: (pad2 F ++ [suf]))
      = ('$' :: (natToChars I ++ '.' :: pad2 F)) ++ [suf] := by
    simp
  have hmult : findMult ('$' :: (natToChars I ++ '.' :: (pad2 F ++ [suf])))
      = MULTS suf := by
    rw [hassoc]
    apply findMult_append_suf _ hs
    intro c hc
    simp only [List.mem_cons, List.mem_append] at hc
    rcases hc with rfl | hI | rfl | hF2
    · decide
    · exact not_kmb_of_digit (natToChars_all_digit I c hI)
    · decide
    · exact not_kmb_of_digit (pad2_all_digit hF c hF2)
  obtain ⟨d, ds', hds⟩ := List.exists_cons_of_ne_nil (natToChars_ne_nil I)
  have hfs : (pad2 F).isEmpty = false := by
    have := pad2_length hF
    cases hp : pad2 F with
    | nil => rw [hp] at this; simp at this
    | cons a t => rfl
  have hmatch : matchNumAt ('$' :: (natToChars I ++ '.' :: (pad2 F ++ [suf])))
      = some (digitsValNat (natToChars I), digitsValNat (pad2 F), (pad2 F).length) :=
    matchNumAt_dollar (natToChars I) (pad2 F) [suf] d ds' hds
      (natToChars_all_digit I) hfs (pad2_all_digit hF)
      (by rcases hsuf with rfl | rfl | rfl <;> rfl)
  have hnum := findNum_cons_of_match hmatch
  unfold usd_to_float
  rw [if_neg (by simp)]
  show (match findNum (txtPipeline ('$' :: (natToChars I ++ '.' :: (pad2 F ++ [suf])))) with
        | none => 0
        | some p => mantissa p * findMult (txtPipeline ('$' :: (natToChars I ++ '.' :: (pad2 F ++ [suf]))))) = _
  rw [hpipe, hnum, hmult]
  show mantissa (digitsValNat (natToChars I), digitsValNat (pad2 F), (pad2 F).length) * MULTS suf = _
  rw [mantissa, digitsValNat_natToChars, digitsValNat_pad2 hF, pad2_length hF]
  norm_num

/-- Parse of `"$<digits>"` (no fraction, no suffix). -/
theorem usd_parse_int (k : ℕ) :
    usd_to_float (String.mk ('$' :: natToChars k)) = (k : ℚ) := by
  have hclasses : ∀ c ∈ '$' :: natToChars k,
      c.isWhitespace = false ∧ c.toUpper = c ∧ ((c = ',') = False) := by
    intro c hc
    simp only [List.mem_cons] at hc
    rcases hc with rfl | hk
    · exact ⟨rfl, rfl, by simp⟩
    · have hd := natToChars_all_digit k c hk
      exact ⟨not_ws_of_digit hd, toUpper_of_digit hd, ne_comma_of_digit hd⟩
  have hpipe : txtPipeline ('$' :: natToChars k) = '$' :: natToChars k :=
    txtPipeline_eq_self (fun c hc => (hclasses c hc).1)
      (fun c hc => (hclasses c hc).2.1) (fun c hc => (hclasses c hc).2.2)
  have hmult : findMult ('$' :: natToChars k) = 1 := by
    apply findMult_no_kmb
    intro c hc
    simp only [List.mem_cons] at hc
    rcases hc with rfl | hk
    · decide
    · exact not_kmb_of_digit (natToChars_all_digit k c hk)
  obtain ⟨d, ds', hds⟩ := List.exists_cons_of_ne_nil (natToChars_ne_nil k)
  have hmatch : matchNumAt ('$' :: (natToChars k ++ []))
      = some (digitsValNat (natToChars k), 0, 0) :=
    matchNumAt_dollar_int (natToChars k) [] d ds' hds
      (natToChars_all_digit k) rfl rfl
  rw [List.append_nil] at hmatch
  have hnum := findNum_cons_of_match hmatch
  unfold usd_to_float
  rw [if_neg (by simp)]
  show (match findNum (txtPipeline ('$' :: natToChars k)) with
        | none => 0
        | some p => mantissa p * findMult (txtPipeline ('$' :: natToChars k))) = _
  rw [hpipe, hnum, hmult]
  show mantissa (digitsValNat (natToChars k), 0, 0) * 1 = _
  rw [mantissa, digitsValNat_natToChars]
  norm_num

/-! ## Helper lemmas: `format_amount` branches -/

theorem format_amount_big (v : ℚ) (mult : ℚ) (suf : Char) (hv : 0 < v)
    (hcase : (mult = 1000000000 ∧ suf = 'B' ∧ 1000000000 ≤ v) ∨
             (mult = 1000000 ∧ suf = 'M' ∧ 1000000 ≤ v ∧ v < 1000000000) ∨
             (mult = 1000 ∧ suf = 'K' ∧ 1000 ≤ v ∧ v < 1000000)) :
    format_amount v = String.mk ('$' :: (fmt2 (v / mult) ++ [suf])) := by
  simp only [format_amount]
  rw [abs_of_pos hv, if_neg (by linarith : ¬v < 0)]
  rcases hcase with ⟨rfl, rfl, h1⟩ | ⟨rfl, rfl, h1, h2⟩ | ⟨rfl, rfl, h1, h2⟩
  · rw [if_pos h1]
    rfl
  · rw [if_neg (by linarith), if_pos h1]
    rfl
  · rw [if_neg (by linarith), if_neg (by linarith), if_pos h1]
    rfl

theorem format_amount_small (v : ℚ) (hv : 0 ≤ v) (hlt : v < 1000) :
    format_amount v = String.mk ('$' :: natCommaChars (⌊v + 1 / 2⌋).toNat) := by
  simp only [format_amount]
  rw [abs_of_nonneg hv, if_neg (by linarith : ¬v < 0),
    if_neg (by linarith : ¬(1000000000 : ℚ) ≤ v), if_neg (by linarith : ¬(1000000 : ℚ) ≤ v),
    if_neg (by linarith : ¬(1000 : ℚ) ≤ v)]
  rfl

/-- `fmt2` unfolded. -/
theorem fmt2_eq (q : ℚ) :
    fmt2 q = natToChars ((⌊q * 100 + 1 / 2⌋).toNat / 100) ++
      '.' :: pad2 ((⌊q * 100 + 1 / 2⌋).toNat % 100) := rfl

theorem group3_of_length_le {l : List Char} (h : l.length ≤ 3) : group3 l = l :=
  match l, h with
  | [], _ => rfl
  | [_], _ => rfl
  | [_, _], _ => rfl
  | [_, _, _], _ => rfl
  | _ :: _ :: _ :: _ :: _, h => by simp at h

theorem natCommaChars_of_le {k : ℕ} (h : k < 1000) : natCommaChars k = natToChars k := by
  unfold natCommaChars
  have hlen : (natToChars k).reverse.length ≤ 3 := by
    rw [List.length_reverse]
    have h1000 : k < 10 ^ (2 + 1) := by
      have : (10 : ℕ) ^ (2 + 1) = 1000 := by norm_num
      omega
    exact natToChars_length_le 2 k h1000
  rw [group3_of_length_le hlen, List.reverse_reverse]

/-! ## Helper lemmas: the round trip through a suffix tier -/

theorem floor_half_bound (x : ℚ) : |((⌊x + 1 / 2⌋ : ℤ) : ℚ) - x| ≤ 1 / 2 := by
  have h1 := Int.floor_le (x + 1 / 2)
  have h2 := Int.lt_floor_add_one (x + 1 / 2)
  rw [abs_le]
  constructor <;> linarith

/-- The round trip through one suffix tier: for `1 ≤ v / mult`, parsing
the formatted string recovers the two-decimal rounding of the mantissa
times the multiplier. -/
theorem roundtrip_tier (v : ℚ) (mult : ℚ) (suf : Char)
    (hm1 : 1 ≤ v / mult) (hmpos : 0 < mult)
    (hs : (suf = 'K' || suf = 'M' || suf = 'B' : Bool) = true)
    (hMS : MULTS suf = mult)
    (hfmt : format_amount v = String.mk ('$' :: (fmt2 (v / mult) ++ [suf]))) :
    usd_to_float (format_amount v)
      = (((⌊v / mult * 100 + 1 / 2⌋).toNat : ℚ) / 100) * mult := by
  rw [hfmt, fmt2_eq, List.append_assoc, List.cons_append,
    usd_parse_tier ((⌊v / mult * 100 + 1 / 2⌋).toNat / 100)
      ((⌊v / mult * 100 + 1 / 2⌋).toNat % 100) suf (Nat.mod_lt _ (by norm_num)) hs, hMS]
  have key : ∀ tn : ℕ, ((tn / 100 : ℕ) : ℚ) + ((tn % 100 : ℕ) : ℚ) / 100
      = (tn : ℚ) / 100 := by
    intro tn
    have hdm : (tn / 100) * 100 + tn % 100 = tn := by omega
    field_simp
    exact_mod_cast hdm
  rw [key]

/-- The 1% (in fact 0.5%) relative-error bound through one tier, given
`1 ≤ v / mult < 1000`. -/
theorem roundtrip_tier_bound (v : ℚ) (mult : ℚ) (suf : Char)
    (hm1 : 1 ≤ v / mult) (hmpos : 0 < mult)
    (hs : (suf = 'K' || suf = 'M' || suf = 'B' : Bool) = true)
    (hMS : MULTS suf = mult)
    (hfmt : format_amount v = String.mk ('$' :: (fmt2 (v / mult) ++ [suf]))) :
    |usd_to_float (format_amount v) - v| ≤ v / 100 := by
  rw [roundtrip_tier v mult suf hm1 hmpos hs hMS hfmt]
  set t : ℤ := ⌊v / mult * 100 + 1 / 2⌋ with ht
  have htpos : (100 : ℤ) ≤ t := by
    rw [ht, Int.le_floor]
    push_cast
    nlinarith
  have htn : ((t.toNat : ℕ) : ℚ) = (t : ℚ) := by
    exact_mod_cast Int.toNat_of_nonneg (by omega : (0 : ℤ) ≤ t)
  have hb := floor_half_bound (v / mult * 100)
  rw [← ht] at hb
  have hveq : v / mult * mult = v := by field_simp
  have hexp : ((t.toNat : ℚ) / 100) * mult - v
      = (((t : ℚ) - v / mult * 100) / 100) * mult := by
    rw [htn]
    field_simp
    ring
  rw [hexp, abs_mul, abs_div, abs_of_pos hmpos]
  have habs : |(100 : ℚ)| = 100 := by norm_num
  rw [habs]
  have hmlev : mult ≤ v := by
    have := mul_le_mul_of_nonneg_right hm1 (le_of_lt hmpos)
    rw [one_mul, hveq] at this
    linarith
  calc |(t : ℚ) - v / mult * 100| / 100 * mult ≤ (1 / 2) / 100 * mult := by
        apply mul_le_mul_of_nonneg_right _ (le_of_lt hmpos)
        apply div_le_div_of_nonneg_right _ (by norm_num)
        exact hb
    _ = mult / 200 := by ring
    _ ≤ v / 100 := by linarith

/-- Evaluation helper: `usd_to_float` from the kernel-computable scan
results. -/
theorem usd_eval (s : String) (i f k : ℕ) (m : ℚ)
    (hne : s.data.isEmpty = false)
    (hnum : findNum (txtPipeline s.data) = some (i, f, k))
    (hmult : findMult (txtPipeline s.data) = m) :
    usd_to_float s = ((i : ℚ) + (f : ℚ) / (10 : ℚ) ^ k) * m := by
  unfold usd_to_float
  rw [hne]
  simp only [Bool.false_eq_true, if_false, hnum, hmult, mantissa]

/-- Round trip below the suffix tiers: values in `[0, 1000)` come back as
the nearest whole dollar amount. -/
theorem roundtrip_small (v : ℚ) (h0 : 0 ≤ v) (hlt : v < 1000) :
    usd_to_float (format_amount v) = ((⌊v + 1 / 2⌋).toNat : ℚ) := by
  have hk1000 : (⌊v + 1 / 2⌋).toNat ≤ 1000 := by
    have h1 : ⌊v + 1 / 2⌋ ≤ 1000 := by
      rw [Int.floor_le_iff]
      push_cast
      linarith
    omega
  rw [format_amount_small v h0 hlt]
  by_cases hk9 : (⌊v + 1 / 2⌋).toNat ≤ 999
  · rw [natCommaChars_of_le (by omega), usd_parse_int]
  · have hk : (⌊v + 1 / 2⌋).toNat = 1000 := by omega
    rw [hk]
    have hcomma : natCommaChars 1000 = ['1', ',', '0', '0', '0'] := rfl
    rw [hcomma,
      usd_eval (String.mk ['$', '1', ',', '0', '0', '0']) 1000 0 0 1 rfl (by decide) rfl]
    norm_num

/-- Selecting the tier for any `v` in `[1000, 999·10⁹]` gives the 1%
round-trip error bound. -/
theorem roundtrip_bound_tiers (v : ℚ) (h1 : 1000 ≤ v) (h2 : v ≤ 999 * 10 ^ 9) :
    |usd_to_float (format_amount v) - v| ≤ v / 100 := by
  have hv : 0 < v := by linarith
  rcases lt_or_le v 1000000 with hK | hM
  · exact roundtrip_tier_bound v 1000 'K'
      ((one_le_div (by norm_num)).mpr h1) (by norm_num) (by decide) rfl
      (format_amount_big v 1000 'K' hv (Or.inr (Or.inr ⟨rfl, rfl, h1, hK⟩)))
  · rcases lt_or_le v 1000000000 with hM9 | hB
    · exact roundtrip_tier_bound v 1000000 'M'
        ((one_le_div (by norm_num)).mpr hM) (by norm_num) (by decide) rfl
        (format_amount_big v 1000000 'M' hv (Or.inr (Or.inl ⟨rfl, rfl, hM, hM9⟩)))
    · exact roundtrip_tier_bound v 1000000000 'B'
        ((one_le_div (by norm_num)).mpr hB) (by norm_num) (by decide) rfl
        (format_amount_big v 1000000000 'B' hv (Or.inl ⟨rfl, rfl, hB⟩))

/-- The round trip through any tier gives a positive value. -/
theorem roundtrip_tier_pos (v : ℚ) (mult : ℚ) (suf : Char)
    (hm1 : 1 ≤ v / mult) (hmpos : 0 < mult)
    (hs : (suf = 'K' || suf = 'M' || suf = 'B' : Bool) = true)
    (hMS : MULTS suf = mult)
    (hfmt : format_amount v = String.mk ('$' :: (fmt2 (v / mult) ++ [suf]))) :
    0 < usd_to_float (format_amount v) := by
  rw [roundtrip_tier v mult suf hm1 hmpos hs hMS hfmt]
  have htpos : (100 : ℤ) ≤ ⌊v / mult * 100 + 1 / 2⌋ := by
    rw [Int.le_floor]
    push_cast
    nlinarith
  have htn : (100 : ℕ) ≤ (⌊v / mult * 100 + 1 / 2⌋).toNat := by omega
  have : (0 : ℚ) < ((⌊v / mult * 100 + 1 / 2⌋).toNat : ℚ) := by
    exact_mod_cast Nat.lt_of_lt_of_le (by norm_num) htn
  positivity

/-- Round trip of any `v ≥ 1` is positive. -/
theorem roundtrip_pos (v : ℚ) (h1 : 1 ≤ v) : 0 < usd_to_float (format_amount v) := by
  rcases lt_or_le v 1000 with hsm | hb
  · rw [roundtrip_small v (by linarith) hsm]
    have hfl : 1 ≤ ⌊v + 1 / 2⌋ := by
      rw [Int.le_floor]
      push_cast
      linarith
    have : 1 ≤ (⌊v + 1 / 2⌋).toNat := by omega
    exact_mod_cast Nat.lt_of_lt_of_le (by norm_num) this
  · have hv : 0 < v := by linarith
    rcases lt_or_le v 1000000 with hK | hM
    · exact roundtrip_tier_pos v 1000 'K'
        ((one_le_div (by norm_num)).mpr hb) (by norm_num) (by decide) rfl
        (format_amount_big v 1000 'K' hv (Or.inr (Or.inr ⟨rfl, rfl, hb, hK⟩)))
    · rcases lt_or_le v 1000000000 with hM9 | hB
      · exact roundtrip_tier_pos v 1000000 'M'
          ((one_le_div (by norm_num)).mpr hM) (by norm_num) (by decide) rfl
          (format_amount_big v 1000000 'M' hv (Or.inr (Or.inl ⟨rfl, rfl, hM, hM9⟩)))
      · exact roundtrip_tier_pos v 1000000000 'B'
          ((one_le_div (by norm_num)).mpr hB) (by norm_num) (by decide) rfl
          (format_amount_big v 1000000000 'B' hv (Or.inl ⟨rfl, rfl, hB⟩))

/-- `format_amount` starts with `-` exactly for negative inputs, with `$`
otherwise. -/
theorem format_amount_head (v : ℚ) :
    (format_amount v).data.head? = some (if v < 0 then '-' else '$') := by
  simp only [format_amount]
  by_cases hv : v < 0
  · rw [if_pos hv, if_pos hv]
    split_ifs <;> rfl
  · rw [if_neg hv, if_neg hv]
    split_ifs <;> rfl

/-! ## Helper lemmas: ranking -/

theorem absAmt_set_rank (r : TopRow) (n : ℕ) : absAmt { r with rank := n } = absAmt r := rfl

theorem mem_insertDesc {r : TopRow} : ∀ {l y}, y ∈ insertDesc r l → y = r ∨ y ∈ l := by
  intro l
  induction l with
  | nil => intro y hy; simp [insertDesc] at hy; exact Or.inl hy
  | cons x xs ih =>
    intro y hy
    rw [insertDesc] at hy
    split at hy
    · rcases List.mem_cons.mp hy with rfl | h
      · exact Or.inl rfl
      · exact Or.inr h
    · rcases List.mem_cons.mp hy with rfl | h
      · exact Or.inr (List.mem_cons_self _ _)
      · rcases ih h with rfl | h2
        · exact Or.inl rfl
        · exact Or.inr (List.mem_cons_of_mem _ h2)

theorem pairwise_insertDesc {r : TopRow} :
    ∀ {l}, l.Pairwise (fun a b => absAmt b ≤ absAmt a) →
      (insertDesc r l).Pairwise (fun a b => absAmt b ≤ absAmt a) := by
  intro l
  induction l with
  | nil => intro _; simp [insertDesc]
  | cons x xs ih =>
    intro hp
    rw [insertDesc]
    obtain ⟨hx, hxs⟩ := List.pairwise_cons.mp hp
    split
    · rename_i hlt
      refine List.pairwise_cons.mpr ⟨?_, hp⟩
      intro y hy
      rcases List.mem_cons.mp hy with rfl | h
      · exact le_of_lt hlt
      · exact le_trans (hx y h) (le_of_lt hlt)
    · rename_i hnlt
      refine List.pairwise_cons.mpr ⟨?_, ih hxs⟩
      intro y hy
      rcases mem_insertDesc hy with rfl | h
      · exact le_of_not_lt hnlt
      · exact hx y h

theorem sortDesc_pairwise (l : List TopRow) :
    (sortDesc l).Pairwise (fun a b => absAmt b ≤ absAmt a) := by
  unfold sortDesc
  suffices h : ∀ acc : List TopRow, acc.Pairwise (fun a b => absAmt b ≤ absAmt a) →
      (l.foldl (fun acc r => insertDesc r acc) acc).Pairwise (fun a b => absAmt b ≤ absAmt a) by
    exact h [] (by simp)
  induction l with
  | nil => intro acc hacc; simpa using hacc
  | cons x xs ih =>
    intro acc hacc
    exact ih (insertDesc x acc) (pairwise_insertDesc hacc)

theorem length_insertDesc (r : TopRow) : ∀ l, (insertDesc r l).length = l.length + 1 := by
  intro l
  induction l with
  | nil => rfl
  | cons x xs ih =>
    rw [insertDesc]
    split
    · simp
    · simp [ih]

theorem length_sortDesc (l : List TopRow) : (sortDesc l).length = l.length := by
  unfold sortDesc
  suffices h : ∀ acc : List TopRow,
      (l.foldl (fun acc r => insertDesc r acc) acc).length = l.length + acc.length by
    simpa using h []
  induction l with
  | nil => intro acc; simp
  | cons x xs ih =>
    intro acc
    rw [List.foldl_cons, ih (insertDesc x acc), length_insertDesc]
    simp only [List.length_cons]
    omega

theorem pairwise_enumFrom {S : TopRow → TopRow → Prop} :
    ∀ (l : List TopRow) (n : ℕ), l.Pairwise S →
      (l.enumFrom n).Pairwise (fun p q => S p.2 q.2) := by
  intro l
  induction l with
  | nil => intro n _; simp
  | cons a l ih =>
    intro n hp
    obtain ⟨ha, hl⟩ := List.pairwise_cons.mp hp
    rw [List.enumFrom]
    refine List.pairwise_cons.mpr ⟨?_, ih (n + 1) hl⟩
    intro q hq
    have hq2 : q.2 ∈ (l.enumFrom (n + 1)).map Prod.snd := List.mem_map_of_mem Prod.snd hq
    rw [List.enumFrom_map_snd] at hq2
    exact ha q.2 hq2

theorem enumFrom_map_rank :
    ∀ (l : List TopRow) (n : ℕ),
      ((l.enumFrom n).map fun p => p.1 + 1) = List.range' (n + 1) l.length := by
  intro l
  induction l with
  | nil => intro n; rfl
  | cons a l ih =>
    intro n
    rw [List.enumFrom, List.map_cons, List.length_cons, List.range'_succ, ih]

theorem rankRows_ranks (cs : List TopRow) :
    (rankRows cs).map (fun r => r.rank) = List.range' 1 (rankRows cs).length := by
  unfold rankRows
  rw [List.map_map]
  have : ((fun r => r.rank) ∘ fun p : ℕ × TopRow => { p.2 with rank := p.1 + 1 })
      = fun p : ℕ × TopRow => p.1 + 1 := rfl
  rw [this, List.enum, enumFrom_map_rank]
  simp

theorem rankRows_sorted (cs : List TopRow) :
    (rankRows cs).Pairwise (fun a b => absAmt b ≤ absAmt a) := by
  unfold rankRows
  rw [List.pairwise_map, List.enum]
  have htake : ((sortDesc cs).take 20).Pairwise (fun a b => absAmt b ≤ absAmt a) :=
    (sortDesc_pairwise cs).sublist (List.take_sublist _ _)
  have := pairwise_enumFrom ((sortDesc cs).take 20) 0 htake
  apply List.Pairwise.imp _ this
  intro p q h
  simpa [absAmt_set_rank] using h

theorem rankRows_length (cs : List TopRow) :
    (rankRows cs).length = min 20 cs.length := by
  unfold rankRows
  simp [List.length_take, length_sortDesc]

/-! ## Claims -/

/-- C3: for every candidate set containing at least one nonzero-amount
candidate, the ranked sequence is sorted non-increasing by
`abs(amountUsd)`, contains at most 20 records (excess candidates are
discarded: the length is `min 20 |cs|`), and the `rank` of the `i`-th
record is exactly `i` for `i = 1..len` — the ranks are exactly
`1, 2, ..., len`, with no gaps and no duplicates. -/
theorem claim_C3 (cs : List TopRow) (hnz : ∃ r ∈ cs, r.size_usd_num ≠ 0) :
    (rankRows cs).Pairwise (fun a b => absAmt b ≤ absAmt a) ∧
    (rankRows cs).length = min 20 cs.length ∧
    (rankRows cs).length ≤ 20 ∧
    (rankRows cs).map (fun r => r.rank) = List.range' 1 (rankRows cs).length :=
  ⟨rankRows_sorted cs, rankRows_length cs,
   by rw [rankRows_length]; omega, rankRows_ranks cs⟩

/-- C3 witness: the claim applied to a concrete one-candidate set whose
single candidate has the nonzero amount 5. -/
theorem claim_C3_witness :
    (rankRows [{ rank := 0, symbol := "AAA", side := "-", size_usd_text := "$5", size_usd_num := 5, owner := "", address := "" }]).length ≤ 20 :=
  (claim_C3 _ ⟨_, List.mem_singleton_self _, by norm_num⟩).2.2.1

/-- C6 counterexample: the claim says a textual amount with a leading
minus sign parses to a negative value; but
`usd_to_float "-$5.00M" = 5000000 > 0` — the regex group converted by
`float` excludes the sign, so the parse result is never negative. -/
theorem claim_C6_counterexample :
    usd_to_float "-$5.00M" = 5000000 ∧ ¬usd_to_float "-$5.00M" < 0 := by
  have h := usd_eval "-$5.00M" 5 0 2 1000000 rfl (by decide) rfl
  constructor
  · rw [h]; norm_num
  · rw [h]; norm_num

/-- C6 as amended: `usd_to_float` never returns a negative value (the
minus sign is matched but not captured by the regex group);
`format_amount` does preserve sign (leading `-` exactly for negative
input, `$` otherwise); consequently the round trip preserves sign for
`v ≥ 1` (positive result), but not for negative `v`. -/
theorem claim_C6 :
    (∀ s : String, 0 ≤ usd_to_float s) ∧
    (∀ v : ℚ, (format_amount v).data.head? = some (if v < 0 then '-' else '$')) ∧
    (∀ v : ℚ, 1 ≤ v → 0 < usd_to_float (format_amount v)) :=
  ⟨usd_to_float_nonneg, format_amount_head, roundtrip_pos⟩

/-- C6 witness: the amended claim applied at `s = "-$3"` and `v = 7`. -/
theorem claim_C6_witness :
    0 ≤ usd_to_float "-$3" ∧ 0 < usd_to_float (format_amount 7) :=
  ⟨claim_C6.1 "-$3", claim_C6.2.2 7 (by norm_num)⟩

/-- C7 counterexample: `v = 1.49` is between 1 and 999·10⁹, but
`format_amount` renders values below $1000 as a rounded whole-dollar
amount (`"$1"`), so the round trip is off by 33%, far beyond 1%. -/
theorem claim_C7_counterexample :
    (1 : ℚ) ≤ 149 / 100 ∧ (149 / 100 : ℚ) ≤ 999 * 10 ^ 9 ∧
    ¬|usd_to_float (format_amount (149 / 100)) - 149 / 100| ≤ (149 / 100) / 100 := by
  have hfmt : format_amount (149 / 100 : ℚ)
      = String.mk ('$' :: natCommaChars (⌊(149 / 100 : ℚ) + 1 / 2⌋).toNat) :=
    format_amount_small _ (by norm_num) (by norm_num)
  have hfl : (⌊(149 / 100 : ℚ) + 1 / 2⌋) = 1 := by
    rw [show (149 / 100 : ℚ) + 1 / 2 = 199 / 100 by norm_num]
    norm_num [Int.floor_eq_iff]
  rw [hfl] at hfmt
  have h1 : natCommaChars (1 : ℤ).toNat = natToChars 1 := natCommaChars_of_le (by norm_num)
  rw [h1] at hfmt
  refine ⟨by norm_num, by norm_num, ?_⟩
  have heq : |usd_to_float (format_amount (149 / 100 : ℚ)) - 149 / 100| = 49 / 100 := by
    rw [hfmt, usd_parse_int 1,
      show ((1 : ℕ) : ℚ) - 149 / 100 = -(49 / 100) by norm_num, abs_neg,
      abs_of_pos (by norm_num : (0 : ℚ) < 49 / 100)]
  rw [heq]
  norm_num

/-- C7 as amended: the 1% round-trip bound holds on the suffix tiers,
i.e. for every `v` with `1000 ≤ v ≤ 999·10⁹` (below $1000 the amount is
rounded to whole dollars, so sub-dollar precision is lost, as the
counterexample shows). -/
theorem claim_C7 (v : ℚ) (h1 : 1000 ≤ v) (h2 : v ≤ 999 * 10 ^ 9) :
    |usd_to_float (format_amount v) - v| ≤ v / 100 :=
  roundtrip_bound_tiers v h1 h2

/-- C7 witness: the amended claim applied at `v = 123456`. -/
theorem claim_C7_witness :
    |usd_to_float (format_amount 123456) - 123456| ≤ 123456 / 100 :=
  claim_C7 123456 (by norm_num) (by norm_num)

/-- C8: `usd_to_float "139,860,000" = 139860000` (thousands separators
stripped, no suffix), and `format_amount 139860000 = "$139.86M"` (M
suffix, two decimal digits). -/
theorem claim_C8 :
    usd_to_float "139,860,000" = 139860000 ∧
    format_amount 139860000 = "$139.86M" := by
  constructor
  · rw [usd_eval "139,860,000" 139860000 0 0 1 rfl (by decide) rfl]
    norm_num
  · rw [format_amount_big 139860000 1000000 'M' (by norm_num)
      (Or.inr (Or.inl ⟨rfl, rfl, by norm_num, by norm_num⟩))]
    have ht : (⌊(139860000 : ℚ) / 1000000 * 100 + 1 / 2⌋) = 13986 := by
      rw [show (139860000 : ℚ) / 1000000 * 100 + 1 / 2 = 27973 / 2 by norm_num]
      norm_num [Int.floor_eq_iff]
    rw [fmt2_eq, ht]
    decide

/-! ## Helper lemmas: strategy-chain evaluation -/

theorem ne_nil_of_mem_nz {l : List TopRow} (h : ∃ r ∈ l, r.size_usd_num ≠ 0) :
    l ≠ [] := by
  obtain ⟨r, hr, _⟩ := h
  intro he
  subst he
  exact List.not_mem_nil r hr

/-- A one-cell DOM table row whose cell carries a `$`-amount and is not
ticker-shaped. -/
theorem rowC_eval (s : String) (q : ℚ)
    (hd : dollarDigitC s.data = true)
    (hsym : fullmatchSym s = false)
    (hne : s.data.isEmpty = false)
    (hq : usd_to_float s = q) (hq0 : ¬q = 0) :
    rowC [s] = some { rank := 0, symbol := s, side := guess_side [s],
                      size_usd_text := s, size_usd_num := q, owner := "",
                      address := find_first_addr [s] } := by
  simp only [rowC, List.find?, hd, hsym, List.tail_cons, hq, if_neg hq0, Option.getD_some]
  simp [hne]

/-- `fetch_hyperdash_top` on a page whose only data is a single one-cell
DOM row: the first three stages yield nothing and the DOM stage wins. -/
theorem fetch_dom_single (s : String) (row : TopRow) (hrow : rowC [s] = some row) :
    fetch_hyperdash_top ⟨none, [], [], .ok (), [.ok [s]], .ok ""⟩
      = .ok (rankRows [row]) := by
  have hc : runCAux [] [Except.ok [s]] = [row] := by
    simp only [runCAux, hrow, Option.toList_some, List.nil_append]
  show (if runCAux [] [Except.ok [s]] = [] then Except.ok (rankRows (runD ""))
        else Except.ok (rankRows (runCAux [] [Except.ok [s]]))) = Except.ok (rankRows [row])
  rw [hc, if_neg (List.cons_ne_nil row [])]

theorem cmd_top_dom (tm : ℕ) (s : String) (row : TopRow) (hrow : rowC [s] = some row) :
    cmd_top tm ⟨none, [], [], .ok (), [.ok [s]], .ok ""⟩
      = format_top_markdown (rankRows [row]) := by
  unfold cmd_top
  rw [fetch_dom_single s row hrow]

theorem usd5M : usd_to_float "$5M" = 5000000 := by
  rw [usd_eval "$5M" 5 0 0 1000000 rfl (by decide) rfl]
  norm_num

theorem usd7M : usd_to_float "$7M" = 7000000 := by
  rw [usd_eval "$7M" 7 0 0 1000000 rfl (by decide) rfl]
  norm_num

/-! ## Helper lemmas: structured extraction on `name`/`pv` rows -/

theorem jTruthy_str {s : String} (h : s ≠ "") : jTruthy (.str s) = true := by
  unfold jTruthy
  cases s with
  | mk l =>
    cases l with
    | nil => exact absurd rfl h
    | cons c t => rfl

theorem candidateOfDict_name_pv (nm : String) (v : ℤ) (hnm : nm ≠ "") (hv : v ≠ 0) :
    candidateOfDict [("name", .str nm), ("pv", .int v)]
      = some { rank := 0, symbol := "-", side := "-",
               size_usd_text := format_amount (v : ℚ), size_usd_num := (v : ℚ),
               owner := nm, address := "" } := by
  have h1 : firstNumField [("name", Json.str nm), ("pv", Json.int v)]
      = some ((v : ℚ), format_amount (v : ℚ)) := rfl
  have hv' : ¬((v : ℚ) = 0) := by exact_mod_cast hv
  simp only [candidateOfDict, h1, if_neg hv']
  simp only [orChainJ, ite_true, ite_self]
  simp only [jTruthy_str hnm, show jTruthy (Json.str "-") = true from rfl,
    show jTruthy (Json.str "") = false from rfl, if_true, if_false]
  rfl

/-! ## Remaining claims -/

set_option maxRecDepth 4000 in
/-- C1 counterexample: two `/top` calls 1000 ms apart — well inside any
TTL window the spec allows (~120–300 s) — return DIFFERENT results when
the page content changed between the calls, so the second call did not
return a cached result: it ran a fresh fetch cycle.  (There is also no
`fetchedAtEpochMillis` anywhere: `TopRow` carries no timestamp.) -/
theorem claim_C1_counterexample :
    cmd_top 0 ⟨none, [], [], .ok (), [.ok ["$5M"]], .ok ""⟩
      ≠ cmd_top 1000 ⟨none, [], [], .ok (), [.ok ["$7M"]], .ok ""⟩ := by
  rw [cmd_top_dom 0 "$5M" _ (rowC_eval "$5M" 5000000 rfl rfl rfl usd5M (by norm_num)),
    cmd_top_dom 1000 "$7M" _ (rowC_eval "$7M" 7000000 rfl rfl rfl usd7M (by norm_num))]
  decide

/-- C1 as amended: there is no cache, TTL or timestamp in the program.
Every `/top` call behaves identically regardless of the time at which it
arrives, and each call's reply is computed from a fresh
`fetch_hyperdash_top` of the page as it is at that call. -/
theorem claim_C1 :
    (∀ (t₁ t₂ : ℕ) (p : Page), cmd_top t₁ p = cmd_top t₂ p) ∧
    (∀ (tm : ℕ) (p : Page) (rows : List TopRow),
      fetch_hyperdash_top p = .ok rows → cmd_top tm p = format_top_markdown rows) :=
  ⟨fun _ _ _ => rfl, fun _ _ _ h => by unfold cmd_top; rw [h]⟩

/-- C1 witness: the amended claim applied at a concrete call time and
page. -/
theorem claim_C1_witness :
    cmd_top 5 ⟨none, [], [], .ok (), [], .ok ""⟩ = format_top_markdown [] :=
  claim_C1.2 5 ⟨none, [], [], .ok (), [], .ok ""⟩ [] rfl

/-- C2: whenever a stage of the chain (embedded-state = the two
script-tag blocks, then network capture, then DOM tables) yields at least
one candidate with nonzero parsed amount, `fetch_hyperdash_top` returns
exactly that stage's ranked rows — for EVERY page `p`, so the result does
not depend on anything a later stage would read (the later strategies are
not run). -/
theorem claim_C2 (p : Page) :
    ((∃ r ∈ embeddedRows p, r.size_usd_num ≠ 0) →
        fetch_hyperdash_top p = .ok (rankRows (embeddedRows p))) ∧
    (embeddedRows p = [] → (∃ r ∈ networkRows p, r.size_usd_num ≠ 0) →
        fetch_hyperdash_top p = .ok (rankRows (networkRows p))) ∧
    (embeddedRows p = [] → networkRows p = [] →
      (∃ r ∈ domTableRows p, r.size_usd_num ≠ 0) →
        fetch_hyperdash_top p = .ok (rankRows (domTableRows p))) := by
  simp only [fetch_hyperdash_top, embeddedRows, networkRows, domTableRows]
  by_cases hA1 : runCaught (strategyA1 p) = []
  · rw [if_pos hA1, if_pos hA1]
    by_cases hA2 : runCaught (strategyA2 p) = []
    · rw [if_pos hA2]
      refine ⟨?_, ?_, ?_⟩
      · intro h
        rw [hA2] at h
        obtain ⟨r, hr, _⟩ := h
        exact absurd hr (List.not_mem_nil r)
      · intro _ h
        rw [if_neg (ne_nil_of_mem_nz h)]
      · intro _ hBn h
        rw [if_pos hBn, if_neg (ne_nil_of_mem_nz h)]
    · rw [if_neg hA2]
      exact ⟨fun _ => rfl, fun he _ => absurd he hA2, fun he _ _ => absurd he hA2⟩
  · rw [if_neg hA1, if_neg hA1]
    exact ⟨fun _ => rfl, fun he _ => absurd he hA1, fun he _ _ => absurd he hA1⟩

/-- C2 witness: on a page whose embedded-state and network stages yield
nothing and whose DOM stage yields one $5M candidate, the chain returns
the ranked DOM rows. -/
theorem claim_C2_witness :
    fetch_hyperdash_top ⟨none, [], [], .ok (), [.ok ["$5M"]], .ok ""⟩
      = .ok (rankRows (domTableRows ⟨none, [], [], .ok (), [.ok ["$5M"]], .ok ""⟩)) := by
  have hdom : domTableRows ⟨none, [], [], .ok (), [.ok ["$5M"]], .ok ""⟩
      = [{ rank := 0, symbol := "$5M", side := guess_side ["$5M"], size_usd_text := "$5M",
           size_usd_num := 5000000, owner := "", address := find_first_addr ["$5M"] }] := by
    simp only [domTableRows, runCAux,
      rowC_eval "$5M" 5000000 rfl rfl rfl usd5M (by norm_num),
      Option.toList_some, List.nil_append]
  exact (claim_C2 _).2.2 rfl rfl
    ⟨_, by rw [hdom]; exact List.mem_singleton_self _, by norm_num⟩

/-- C4 counterexample: the claim says every strategy's internal failure
is caught locally and an all-miss run returns a non-error empty result;
but the body-text evaluation of the free-text strategy (src/main.py:369)
sits outside every try/except, so on a page where the first three stages
yield nothing and that evaluation raises, the exception escapes
`fetch_hyperdash_top` instead of producing an empty result. -/
theorem claim_C4_counterexample :
    fetch_hyperdash_top ⟨none, [], [], .ok (), [], .error ()⟩ = .error () := rfl

/-- C4 as amended: failures of the embedded-state, network-capture and
DOM-table strategies are caught locally and treated as zero candidates;
only a failure of the free-text body-text evaluation escapes (the Telegram
handler catches it and replies with an error message).  Whenever the body
text evaluates, the fetch returns a non-error row list, and when all four
strategies yield zero usable candidates it returns the empty list, which
the caller formats as a friendly no-data message rather than an error. -/
theorem claim_C4 (p : Page) (t : String) (hbt : p.bodyText = .ok t) :
    (∃ rows, fetch_hyperdash_top p = .ok rows) ∧
    (runCaught (strategyA1 p) = [] → runCaught (strategyA2 p) = [] →
     runCaught (strategyB p) = [] → runCAux [] p.domRows = [] → runD t = [] →
     fetch_hyperdash_top p = .ok [] ∧
     format_top_markdown []
       = "_No se pudieron extraer filas (la página no devolvió datos visibles)._") := by
  constructor
  · simp only [fetch_hyperdash_top]
    split_ifs <;> try exact ⟨_, rfl⟩
    rw [hbt]
    exact ⟨_, rfl⟩
  · intro h1 h2 h3 h4 h5
    simp only [fetch_hyperdash_top]
    rw [if_pos h1, if_pos h2, if_pos h3, if_pos h4, hbt]
    refine ⟨?_, rfl⟩
    show Except.ok (rankRows (runD t)) = Except.ok []
    rw [h5]
    rfl

/-- C4 witness: the amended claim applied to a page where every strategy
yields nothing and the body text evaluates to the empty string. -/
theorem claim_C4_witness :
    fetch_hyperdash_top ⟨none, [], [], .ok (), [], .ok ""⟩ = .ok [] ∧
    format_top_markdown []
      = "_No se pudieron extraer filas (la página no devolvió datos visibles)._" :=
  (claim_C4 ⟨none, [], [], .ok (), [], .ok ""⟩ "" rfl).2 rfl rfl rfl rfl rfl

/-- C5 counterexample: a structured row with keys `{name, pnl}` and a
nonzero `pnl` yields NO candidate at all — `pnl` is not among the
magnitude keys (`usd_fields`/`text_fields`) that
`extract_candidates_from_json` scans, so the claim's "still yields one
candidate per row" fails. -/
theorem claim_C5_counterexample :
    extract_candidates_from_json
        (.arr [.obj [("name", .str "alice"), ("pnl", .int 777)]]) = [] := by
  decide

/-- C5 as amended: a structured payload whose rows carry `name` and a
RECOGNISED magnitude key (e.g. `pv`, which is in `usd_fields`) but no
address key still yields exactly one candidate per row, with the `name`
value as the owner (identity) field and the `pv` value as the amount;
rows whose only magnitude-like key is `pnl` yield no candidate. -/
theorem claim_C5 (rows : List (String × ℤ))
    (h : ∀ p ∈ rows, p.1 ≠ "" ∧ p.2 ≠ 0) :
    extract_candidates_from_json
        (.arr (rows.map fun p => .obj [("name", .str p.1), ("pv", .int p.2)]))
      = rows.map fun p =>
          { rank := 0, symbol := "-", side := "-",
            size_usd_text := format_amount (p.2 : ℚ), size_usd_num := (p.2 : ℚ),
            owner := p.1, address := "" } := by
  induction rows with
  | nil => rfl
  | cons p rest ih =>
    have hp := h p (List.mem_cons_self _ _)
    have hrest := fun q hq => h q (List.mem_cons_of_mem _ hq)
    simp only [List.map_cons]
    unfold extract_candidates_from_json
    simp only [walkDicts, walkList, walkKVs, List.append_nil, List.nil_append,
      List.filterMap_append, List.filterMap_cons, List.filterMap_nil]
    rw [candidateOfDict_name_pv p.1 p.2 hp.1 hp.2]
    unfold extract_candidates_from_json at ih
    simp only [walkDicts] at ih
    rw [ih hrest]
    rfl

/-- C5 witness: the amended claim applied to a single `{name, pv}` row. -/
theorem claim_C5_witness :
    extract_candidates_from_json
        (.arr [.obj [("name", .str "alice"), ("pv", .int 5)]])
      = [{ rank := 0, symbol := "-", side := "-",
           size_usd_text := format_amount ((5 : ℤ) : ℚ), size_usd_num := ((5 : ℤ) : ℚ),
           owner := "alice", address := "" }] :=
  claim_C5 [("alice", 5)] (by decide)

/-- C9: the free-text (last-resort) strategy on the single visible line
`"$220.0M Short BTC 0xABCDEF0000000000000000000000000000001234"` yields
exactly one candidate with amount 220000000, side `short`, symbol
`"BTC"`, and the hex address (rank is 0 until ranking assigns it). -/
theorem claim_C9 :
    runD "$220.0M Short BTC 0xABCDEF0000000000000000000000000000001234" =
      [{ rank := 0, symbol := "BTC", side := "short",
         size_usd_text := "$220.0M Short BTC 0xABCDEF0000000000000000000000000000001234",
         size_usd_num := 220000000, owner := "",
         address := "0xABCDEF0000000000000000000000000000001234" }] := by
  have husd : usd_to_float "$220.0M Short BTC 0xABCDEF0000000000000000000000000000001234"
      = 220000000 := by
    rw [usd_eval "$220.0M Short BTC 0xABCDEF0000000000000000000000000000001234"
      220 0 1 1000000 rfl (by decide) rfl]
    norm_num
  have hsplit : runD "$220.0M Short BTC 0xABCDEF0000000000000000000000000000001234"
      = (lineD "$220.0M Short BTC 0xABCDEF0000000000000000000000000000001234").toList := by
    unfold runD
    have h1 : splitOnNl "$220.0M Short BTC 0xABCDEF0000000000000000000000000000001234".data
        = ["$220.0M Short BTC 0xABCDEF0000000000000000000000000000001234".data] := by decide
    rw [h1]
    have h2 : (["$220.0M Short BTC 0xABCDEF0000000000000000000000000000001234".data].filter
        fun ln => ln.contains '$')
        = ["$220.0M Short BTC 0xABCDEF0000000000000000000000000000001234".data] := by decide
    rw [h2]
    have h3 : stripChars "$220.0M Short BTC 0xABCDEF0000000000000000000000000000001234".data
        = "$220.0M Short BTC 0xABCDEF0000000000000000000000000000001234".data := by decide
    rw [List.map_cons, List.map_nil, h3]
    rfl
  rw [hsplit]
  unfold lineD
  rw [husd, if_neg (by norm_num : ¬(220000000 : ℚ) = 0)]
  have hsym : symScan "$220.0M Short BTC 0xABCDEF0000000000000000000000000000001234".data false
      = some "BTC".data := by decide
  have hside : guess_side ["$220.0M Short BTC 0xABCDEF0000000000000000000000000000001234"]
      = "short" := by decide
  have haddr : find_first_addr ["$220.0M Short BTC 0xABCDEF0000000000000000000000000000001234"]
      = "0xABCDEF0000000000000000000000000000001234" := by decide
  rw [hsym, hside, haddr]
  rfl

/-- C10: in `extract_candidates_from_json`, numeric magnitude fields are
tried strictly before textual ones: whenever `firstNumField` finds a
value, that value decides the candidate — if it is 0 the object is
rejected outright (the `$`-bearing text fields are never consulted, for
ANY contents of the object's other fields), and if it is nonzero the
produced record carries exactly that value and display text. -/
theorem claim_C10 (kvs : List (String × Json)) (v : ℚ) (t : String)
    (hfn : firstNumField kvs = some (v, t)) :
    (v = 0 → candidateOfDict kvs = none) ∧
    (¬v = 0 → ∃ row : TopRow, candidateOfDict kvs = some row ∧
      row.size_usd_num = v ∧
      row.size_usd_text = if t.data.isEmpty then format_amount v else t) := by
  constructor
  · intro hv0
    simp only [candidateOfDict, hfn]
    rw [if_pos hv0]
  · intro hv
    simp only [candidateOfDict, hfn]
    rw [if_neg hv]
    exact ⟨_, rfl, rfl, rfl⟩

/-- C10 witness: an object whose first recognised numeric field (`usd`)
parses to 0 is rejected even though its `valueText` field holds the
parsable nonzero amount `"$5M"`. -/
theorem claim_C10_witness :
    candidateOfDict [("usd", Json.str "0"), ("valueText", Json.str "$5M")] = none := by
  have h0 : usd_to_float "0" = 0 := by
    rw [usd_eval "0" 0 0 0 1 rfl (by decide) rfl]
    norm_num
  exact (claim_C10 [("usd", Json.str "0"), ("valueText", Json.str "$5M")]
    (usd_to_float "0") "0" rfl).1 h0

end HLTop
